import Mathlib

/-!
Verification of the RenImg batch image rename/transform pipeline.

The definitions below are a shallow embedding of the TypeScript sources:
`src/types.ts` (data model), `src/services/ImageRenamer.ts` (planner
`generatePreview` / `applyPattern` and executor `executeRename`),
`src/services/ImageResizer.ts` (`shouldResize`), `src/App.tsx`
(`handleRename` batch loop) and the `ImageScanner` (`scanDirectory`).

Modelling conventions:
- JavaScript numbers that hold integral values (timestamps, counters,
  widths) are modelled as `Int`; sizes as `Nat`.
- `String.prototype.toLowerCase` is modelled as per-character `Char.toLower`
  (ASCII case folding; the claims do not depend on locale specifics).
- Strings are processed as `List Char`; the JS `String.replace` passes are
  embedded as fueled left-to-right non-overlapping scans that never rescan
  replacement text, matching the `/g` regex-replace semantics used in
  `applyPattern`.
- `new Date(ms).toISOString()` is embedded exactly, including its failure
  (RangeError) for |ms| > 8.64e15, as an `Option`-valued conversion using
  the standard civil-from-days calendar algorithm.
- Browser storage (File System Access API) and canvas image decoding are
  external capabilities; they are modelled by an environment record that
  fixes the file bytes, the decoded image width, the resized bytes, the
  availability of the experimental `move` capability and which storage
  operations fail.  The executor is embedded as the exact sequence of
  storage operations it issues (a trace), so ordering claims are statable.
-/

/-- `src/types.ts` enum `FileStatus`. -/
inductive FileStatus where
  | PENDING
  | SUCCESS
  | ERROR
  | SKIPPED
deriving DecidableEq, Repr

/-- `src/types.ts` interface `ImageFile`.  The opaque browser objects
(`fileObject`, `handle`, `previewUrl`) are not inspected by the planner;
only the presence of `handle` matters to the executor, kept as
`hasHandle`. -/
structure ImageFile where
  id : String
  originalName : String
  extension : String
  path : String
  size : Nat
  lastModified : Int
  hasHandle : Bool
deriving DecidableEq, Repr

/-- `src/types.ts` interface `RenameConfig`.  The source field `prefix` is
a reserved word in Lean and is rendered `prefixStr`. -/
structure RenameConfig where
  pattern : String
  startNumber : Int
  recursive : Bool
  dryRun : Bool
  overwrite : Bool
  prefixStr : String
  suffix : String
  enableResize : Bool
  resizeWidth : Int
  resizeQuality : Int
  keepOriginals : Bool
deriving DecidableEq, Repr

/-- `src/types.ts` interface `ProcessedFile extends ImageFile`. -/
structure ProcessedFile extends ImageFile where
  newName : String
  status : FileStatus
  errorMessage : Option String
deriving DecidableEq, Repr

/-- `String.prototype.toLowerCase`, ASCII case folding. -/
def jsLower (s : String) : String :=
  String.mk (s.toList.map Char.toLower)

/-- One step of `name.replace(/lit/g, rep)` for a literal pattern `lit`:
scan left to right, replace each non-overlapping occurrence, never rescan
the replacement.  Fueled for structural recursion; callers pass the input
length (the scan advances at least one character per step, so that fuel is
always sufficient; all literals used are nonempty). -/
def replaceLitAux (lit rep : List Char) : Nat → List Char → List Char
  | _, [] => []
  | 0, l => l
  | fuel + 1, c :: cs =>
    if !lit.isEmpty && lit.isPrefixOf (c :: cs) then
      rep ++ replaceLitAux lit rep fuel (cs.drop (lit.length - 1))
    else
      c :: replaceLitAux lit rep fuel cs

/-- `name.replace(/lit/g, rep)` on strings. -/
def replaceLit (lit rep s : String) : String :=
  String.mk (replaceLitAux lit.toList rep.toList s.toList.length s.toList)

/-- Matching of the regex `/\x7bnum(?::(\d+))?\x7d/` at the head of a list:
returns the number of characters consumed and the captured padding digits
(`none` for the bare form), or `none` when the token does not match here.
Backtracking of the greedy `\d+` cannot succeed (a shortened digit run is
followed by a digit, never by the closing brace), so the match succeeds
exactly when the maximal digit run is nonempty and followed by the brace. -/
def matchNumToken (l : List Char) : Option (Nat × Option Nat) :=
  if ['\x7b', 'n', 'u', 'm', '\x7d'].isPrefixOf l then
    some (5, none)
  else if ['\x7b', 'n', 'u', 'm', ':'].isPrefixOf l then
    let after := l.drop 5
    let ds := after.takeWhile Char.isDigit
    if ds ≠ [] ∧ (after.dropWhile Char.isDigit).head? = some '\x7d' then
      some (5 + ds.length + 1, some ds.length)
    else
      none
  else
    none

/-- `numStr.padStart(padLen, "0")` on character lists. -/
def jsPadStart (l : List Char) (padLen : Nat) : List Char :=
  List.replicate (padLen - l.length) '0' ++ l

/-- The `name.replace(/\x7bnum(?::(\d+))?\x7d/g, cb)` pass of
`applyPattern`; the callback renders `index.toString()` and pads it with
zeros to the captured width.  Fueled like `replaceLitAux`. -/
def replaceNumAux (index : Int) : Nat → List Char → List Char
  | _, [] => []
  | 0, l => l
  | fuel + 1, c :: cs =>
    match matchNumToken (c :: cs) with
    | some (k, pad) =>
      let numStr := (toString index).toList
      let numStr :=
        match pad with
        | some padLen => jsPadStart numStr padLen
        | none => numStr
      numStr ++ replaceNumAux index fuel ((c :: cs).drop k)
    | none => c :: replaceNumAux index fuel cs

/-- Gregorian civil date from a day count relative to 1970-01-01
(the calendar arithmetic behind `Date.prototype.toISOString`). -/
def civilFromDays (z0 : Int) : Int × Nat × Nat :=
  let z := z0 + 719468
  let era := Int.fdiv z 146097
  let doe := (z - era * 146097).toNat
  let yoe := (doe - doe / 1460 + doe / 36524 - doe / 146096) / 365
  let y : Int := (yoe : Int) + era * 400
  let doy := doe - (365 * yoe + yoe / 4 - yoe / 100)
  let mp := (5 * doy + 2) / 153
  let d := doy - (153 * mp + 2) / 5 + 1
  let m := if mp < 10 then mp + 3 else mp - 9
  (if m ≤ 2 then y + 1 else y, m, d)

/-- Year field of the ISO date string: four zero-padded digits inside
0000–9999, otherwise the expanded six-digit form with explicit sign. -/
def isoYearStr (y : Int) : String :=
  if 0 ≤ y ∧ y ≤ 9999 then
    String.mk (jsPadStart (toString y.toNat).toList 4)
  else
    (if y < 0 then "-" else "+") ++ String.mk (jsPadStart (toString y.natAbs).toList 6)

/-- Two-digit zero-padded field. -/
def pad2 (n : Nat) : String :=
  if n < 10 then "0" ++ toString n else toString n

/-- `new Date(ms).toISOString().split("T")[0]`: the `YYYY-MM-DD` (UTC)
date part.  `none` models the RangeError thrown for time values outside
the representable range |ms| ≤ 8,640,000,000,000,000. -/
def toISODate (ms : Int) : Option String :=
  if ms.natAbs > 8640000000000000 then none
  else
    let days := Int.fdiv ms 86400000
    let c := civilFromDays days
    some (isoYearStr c.1 ++ "-" ++ pad2 c.2.1 ++ "-" ++ pad2 c.2.2)

namespace ImageRenamer

/-- The conflict message assigned by `generatePreview`. -/
def conflictMsg : String := "Conflict: Filename already exists in destination"

/-- `ImageRenamer.applyPattern` (`src/services/ImageRenamer.ts`): three
staged replacement passes over the pattern — `\x7bname\x7d`, then
`\x7bdate\x7d`, then the numeric token — followed by prefix/suffix
concatenation.  The date string is computed unconditionally, so the
conversion failure propagates regardless of the pattern. -/
def applyPattern (file : ImageFile) (config : RenameConfig) (index : Int) :
    Option String :=
  let name := config.pattern.toList
  let name := replaceLitAux (String.toList (String.mk ['\x7b', 'n', 'a', 'm', 'e', '\x7d']))
    file.originalName.toList name.length name
  match toISODate file.lastModified with
  | none => none
  | some dateStr =>
    let name := replaceLitAux (String.toList (String.mk ['\x7b', 'd', 'a', 't', 'e', '\x7d']))
      dateStr.toList name.length name
    let name := replaceNumAux index name.length name
    some (config.prefixStr ++ String.mk name ++ config.suffix)

/-- Loop body of `ImageRenamer.generatePreview`: walks the scanned files
with the running counter and the set of already-used lower-cased target
keys (the JS `Set` is modelled by the list of inserted keys, queried with
`contains`). -/
def generatePreviewAux (config : RenameConfig) :
    List ImageFile → Int → List String → Option (List ProcessedFile)
  | [], _, _ => some []
  | file :: rest, counter, usedNames =>
    match applyPattern file config counter with
    | none => none
    | some newName =>
      let fullNewName := newName ++ file.extension
      let key := jsLower fullNewName
      let clash := usedNames.contains key
      let status := if clash && !config.overwrite then FileStatus.ERROR else FileStatus.PENDING
      let errMsg := if clash && !config.overwrite then some conflictMsg else none
      match generatePreviewAux config rest (counter + 1) (key :: usedNames) with
      | none => none
      | some tail =>
        some ({ toImageFile := file, newName := newName, status := status,
                errorMessage := errMsg } :: tail)

/-- `ImageRenamer.generatePreview`. -/
def generatePreview (files : List ImageFile) (config : RenameConfig) :
    Option (List ProcessedFile) :=
  generatePreviewAux config files config.startNumber []

end ImageRenamer

/-- One storage operation issued by the executor against the File System
Access API: reading the entry's bytes, the experimental atomic move,
creating the target handle, writing, committing the writable, and removing
an entry by name. -/
inductive StorageOp where
  | getFile
  | move (newName : String)
  | createHandle (name : String)
  | write (name : String) (bytes : List Nat)
  | close (name : String)
  | removeEntry (name : String)
deriving DecidableEq, Repr

/-- Environment fixing the behaviour of the browser capabilities consumed
by one `executeRename` call: the bytes currently stored for the entry, the
decoded image width (`none` models a decode failure in the resizer), the
bytes produced by `resizeImage` (`none` models an encode failure), whether
`handle.move` exists (Chrome 111+), and which storage operations reject. -/
structure ExecEnv where
  content : List Nat
  width : Option Int
  resized : Option (List Nat)
  moveSupported : Bool
  getFileFails : Bool
  moveFails : Bool
  createFails : Bool
  writeFails : Bool
  closeFails : Bool
  removeFails : Bool
deriving DecidableEq, Repr

namespace ImageResizer

/-- `ImageResizer.shouldResize` (`src/services/ImageResizer.ts`): decodes
the image (`none` when decoding fails, modelling the rejected promise) and
resolves `img.width > targetWidth` — resizing is requested only for
sources strictly wider than the target. -/
def shouldResize (imgWidth : Option Int) (targetWidth : Int) : Option Bool :=
  imgWidth.map (fun w => decide (targetWidth < w))

end ImageResizer

/-- Outcome of one `executeRename` call: whether it returned normally, and
the sequence of storage operations it issued (a failed operation is the
last element of the trace). -/
structure RenameResult where
  success : Bool
  trace : List StorageOp
deriving DecidableEq, Repr

namespace ImageRenamer

/-- The `targetFileName` computed by `executeRename`: when keeping
originals while resizing, a `_resized` marker is appended before the
extension; otherwise the planned `newName + extension`. -/
def targetFileNameOf (file : ProcessedFile) (config : RenameConfig) : String :=
  if config.keepOriginals && config.enableResize then
    file.newName ++ "_resized" ++ file.extension
  else
    file.newName ++ file.extension

/-- `ImageRenamer.executeRename` (`src/services/ImageRenamer.ts`),
embedded as the trace of storage operations it issues.  Control flow is
the source's: missing handles throw immediately; an unchanged name with
resize disabled is a no-op; the bytes are read (and possibly transformed)
first; then either the experimental `move` fast path (only when no resize
is requested and originals are not kept) or the copy-then-delete fallback
runs, the original being removed only after the writable has been closed
and only when `keepOriginals` is false and the target name differs. -/
def executeRename (env : ExecEnv) (dirOk : Bool) (file : ProcessedFile)
    (config : RenameConfig) : RenameResult :=
  if !(file.hasHandle && dirOk) then
    { success := false, trace := [] }
  else
    let fullNewName := file.newName ++ file.extension
    let fullOldName := file.originalName ++ file.extension
    if fullNewName == fullOldName && !config.enableResize then
      { success := true, trace := [] }
    else if env.getFileFails then
      { success := false, trace := [StorageOp.getFile] }
    else
      let contentResult : Option (List Nat) :=
        if config.enableResize then
          match ImageResizer.shouldResize env.width config.resizeWidth with
          | none => none
          | some true => env.resized
          | some false => some env.content
        else
          some env.content
      match contentResult with
      | none => { success := false, trace := [StorageOp.getFile] }
      | some fileContent =>
        let targetFileName := targetFileNameOf file config
        if env.moveSupported && !config.enableResize && !config.keepOriginals then
          { success := !env.moveFails
            trace := [StorageOp.getFile, StorageOp.move fullNewName] }
        else if env.createFails then
          { success := false
            trace := [StorageOp.getFile, StorageOp.createHandle targetFileName] }
        else if env.writeFails then
          { success := false
            trace := [StorageOp.getFile, StorageOp.createHandle targetFileName,
                      StorageOp.write targetFileName fileContent] }
        else if env.closeFails then
          { success := false
            trace := [StorageOp.getFile, StorageOp.createHandle targetFileName,
                      StorageOp.write targetFileName fileContent,
                      StorageOp.close targetFileName] }
        else if !config.keepOriginals && targetFileName != fullOldName then
          { success := !env.removeFails
            trace := [StorageOp.getFile, StorageOp.createHandle targetFileName,
                      StorageOp.write targetFileName fileContent,
                      StorageOp.close targetFileName,
                      StorageOp.removeEntry fullOldName] }
        else
          { success := true
            trace := [StorageOp.getFile, StorageOp.createHandle targetFileName,
                      StorageOp.write targetFileName fileContent,
                      StorageOp.close targetFileName] }

end ImageRenamer

namespace App

/-- The loop body of `handleRename` (`src/App.tsx`): each queued entry is
processed in order; entries already in `Error` from planning are skipped
(no storage operation is attempted); a normal return marks `Success`; a
thrown error marks that entry `Error` with the generic message, and the
loop continues with the next entry. -/
def runQueue (config : RenameConfig) :
    List (ProcessedFile × ExecEnv) → List (ProcessedFile × List StorageOp)
  | [] => []
  | (file, env) :: rest =>
    (if file.status ≠ FileStatus.ERROR then
      let r := ImageRenamer.executeRename env true file config
      if r.success then
        ({ file with status := FileStatus.SUCCESS }, r.trace)
      else
        ({ file with status := FileStatus.ERROR
                     errorMessage := some "Write/Move failed" }, r.trace)
    else
      (file, [])) :: runQueue config rest

/-- `handleRename` (`src/App.tsx`): a dry run short-circuits without any
storage I/O and without touching statuses, a missing directory handle
returns before the loop, otherwise the queue is processed sequentially. -/
def handleRename (config : RenameConfig) (dirOk : Bool)
    (queue : List (ProcessedFile × ExecEnv)) : List (ProcessedFile × List StorageOp) :=
  if config.dryRun then
    queue.map (fun fe => (fe.1, []))
  else if !dirOk then
    queue.map (fun fe => (fe.1, []))
  else
    runQueue config queue

end App

/-- One directory child as enumerated by the storage collaborator. -/
structure DirEntry where
  name : String
  isFile : Bool
  size : Nat
  lastModified : Int
deriving DecidableEq, Repr

/-- Result of the directory-picker interaction. -/
inductive PickerOutcome where
  | aborted
  | denied (msg : String)
  | granted (entries : List DirEntry)

/-- Platform environment for one `scanDirectory` call: whether
`showDirectoryPicker` exists, how the picker resolves, and the fresh-id
generator (JS `Math.random`, modelled as a position-indexed supply). -/
structure ScanEnv where
  pickerSupported : Bool
  outcome : PickerOutcome
  genId : Nat → String

/-- The scanner's result: the scanned files plus the directory handle
(`none` is the `null` handle returned on user abort). -/
structure ScanOutput where
  files : List ImageFile
  dirHandle : Option Unit
deriving DecidableEq, Repr

namespace ImageScanner

/-- `ImageScanner.allowedExtensions`. -/
def allowedExtensions : List String :=
  [".jpg", ".jpeg", ".png", ".webp", ".gif", ".svg", ".tiff", ".bmp"]

/-- `fileName.lastIndexOf "."`-based split: the part before the last dot
and the part from the last dot on; `none` when the name has no dot. -/
def splitLastDot : List Char → Option (List Char × List Char)
  | [] => none
  | c :: cs =>
    match splitLastDot cs with
    | some (a, b) => some (c :: a, b)
    | none => if c = '.' then some ([], c :: cs) else none

/-- The directory-iteration loop of `scanDirectory`: keep files whose
lower-cased extension is allow-listed, building an `ImageFile` with a
fresh id for each. -/
def scanFiles (genId : Nat → String) : List DirEntry → Nat → List ImageFile
  | [], _ => []
  | e :: rest, idx =>
    if e.isFile then
      match splitLastDot e.name.toList with
      | none => scanFiles genId rest idx
      | some (nm, ext) =>
        let extension := jsLower (String.mk ext)
        if allowedExtensions.contains extension then
          { id := genId idx
            originalName := String.mk nm
            extension := extension
            path := e.name
            size := e.size
            lastModified := e.lastModified
            hasHandle := true } :: scanFiles genId rest (idx + 1)
        else
          scanFiles genId rest idx
    else
      scanFiles genId rest idx

/-- Insertion step of the name sort (`files.sort` with `localeCompare`,
modelled as code-point order). -/
def insertByName (f : ImageFile) : List ImageFile → List ImageFile
  | [] => [f]
  | g :: gs =>
    if g.originalName < f.originalName then g :: insertByName f gs
    else f :: g :: gs

/-- The final `files.sort((a, b) => a.originalName.localeCompare(b.originalName))`. -/
def sortByName (l : List ImageFile) : List ImageFile :=
  l.foldl (fun acc f => insertByName f acc) []

/-- `ImageScanner.scanDirectory`: throws when the platform lacks the
picker capability; a user abort (`AbortError`) is caught and yields an
explicitly-empty result with a `null` handle; any other picker rejection
(permission denial) is rethrown; on success the children are filtered and
sorted. -/
def scanDirectory (env : ScanEnv) : Except String ScanOutput :=
  if !env.pickerSupported then
    Except.error "Your browser does not support the File System Access API. Please use Chrome, Edge, or Opera."
  else
    match env.outcome with
    | PickerOutcome.aborted => Except.ok { files := [], dirHandle := none }
    | PickerOutcome.denied msg => Except.error msg
    | PickerOutcome.granted entries =>
      Except.ok { files := sortByName (scanFiles env.genId entries 0)
                  dirHandle := some () }

end ImageScanner

/-- Shared concrete entry for witness instances. -/
def sampleFile : ProcessedFile :=
  { id := "1"
    originalName := "old"
    extension := ".jpg"
    path := "old.jpg"
    size := 3
    lastModified := 0
    hasHandle := true
    newName := "new"
    status := FileStatus.PENDING
    errorMessage := none }

/-- Shared concrete configuration for witness instances. -/
def sampleCfg : RenameConfig :=
  { pattern := "x"
    startNumber := 1
    recursive := false
    dryRun := false
    overwrite := false
    prefixStr := ""
    suffix := ""
    enableResize := false
    resizeWidth := 1920
    resizeQuality := 85
    keepOriginals := false }

/-- Shared concrete executor environment for witness instances. -/
def sampleEnv : ExecEnv :=
  { content := [10, 20]
    width := some 1000
    resized := some [9]
    moveSupported := false
    getFileFails := false
    moveFails := false
    createFails := false
    writeFails := false
    closeFails := false
    removeFails := false }

/-- Shared concrete batch queue for witness instances: a planning-error
entry, an entry whose write fails, and a normal entry. -/
def sampleQueue : List (ProcessedFile × ExecEnv) :=
  [({ sampleFile with status := FileStatus.ERROR }, sampleEnv),
   (sampleFile, { sampleEnv with writeFails := true }),
   (sampleFile, sampleEnv)]

/-- Shared concrete scanner environment: supported picker, user abort. -/
def sampleScanEnv : ScanEnv :=
  { pickerSupported := true
    outcome := PickerOutcome.aborted
    genId := fun _ => "id" }

/-- Concrete colliding batch for the conflict-detection witness: two
entries whose names differ only by letter case. -/
def c1Files : List ImageFile :=
  [{ sampleFile.toImageFile with originalName := "A" },
   { sampleFile.toImageFile with originalName := "a" }]

/-- Configuration with the bare name token as the whole pattern. -/
def c1Cfg : RenameConfig :=
  { sampleCfg with pattern := String.mk ['\x7b', 'n', 'a', 'm', 'e', '\x7d'] }

/-- The plan computed for `c1Files` under `c1Cfg`. -/
def c1Res : List ProcessedFile :=
  [{ toImageFile := { sampleFile.toImageFile with originalName := "A" }
     newName := "A"
     status := FileStatus.PENDING
     errorMessage := none },
   { toImageFile := { sampleFile.toImageFile with originalName := "a" }
     newName := "a"
     status := FileStatus.ERROR
     errorMessage := some ImageRenamer.conflictMsg }]

/-- Configuration with the bare numeric token as the whole pattern. -/
def c2Cfg : RenameConfig :=
  { sampleCfg with pattern := String.mk ['\x7b', 'n', 'u', 'm', '\x7d'] }

/-- The plan computed for one sample entry under `c2Cfg`. -/
def c2Res : List ProcessedFile :=
  [{ toImageFile := sampleFile.toImageFile
     newName := "1"
     status := FileStatus.PENDING
     errorMessage := none }]

/-- An entry whose timestamp lies outside the representable `Date` range,
so `toISOString` raises a RangeError on it. -/
def c5File : ImageFile :=
  { sampleFile.toImageFile with lastModified := 8640000000000001 }

/-- Configuration with one three-digit padded numeric token. -/
def c8Cfg : RenameConfig :=
  { sampleCfg with
      pattern := String.mk ('\x7b' :: 'n' :: 'u' :: 'm' :: ':' :: (['0','0','3'] ++ ['\x7d'])) }

/-- An entry whose original name is literally the bare numeric token. -/
def c10File : ImageFile :=
  { sampleFile.toImageFile with originalName := String.mk ['\x7b','n','u','m','\x7d'] }

/-- A second entry list for the determinism witness: agrees with the
sample entry on the planning-relevant fields but differs in id, path and
size. -/
def c6Files : List ImageFile :=
  [{ sampleFile.toImageFile with id := "2", path := "q", size := 99 }]

set_option maxHeartbeats 1000000 in
/-- Helper: every trace `executeRename` can produce, together with the
origin of the written bytes.  The trace is one of: empty (missing handles
or the unchanged-name no-op), a failed read, the move fast path, or a
prefix of the copy-then-delete sequence, where the removal step occurs
only in the full five-operation sequence, only when originals are not kept
and the target name differs from the original name. -/
theorem executeRename_shape (env : ExecEnv) (dirOk : Bool)
    (file : ProcessedFile) (config : RenameConfig) :
    ∃ bts,
      (config.enableResize = false → bts = env.content) ∧
      (ImageResizer.shouldResize env.width config.resizeWidth = some false →
        bts = env.content) ∧
      ((ImageRenamer.executeRename env dirOk file config).trace = [] ∨
       (ImageRenamer.executeRename env dirOk file config).trace = [StorageOp.getFile] ∨
       (ImageRenamer.executeRename env dirOk file config).trace =
         [StorageOp.getFile, StorageOp.move (file.newName ++ file.extension)] ∨
       (ImageRenamer.executeRename env dirOk file config).trace =
         [StorageOp.getFile,
          StorageOp.createHandle (ImageRenamer.targetFileNameOf file config)] ∨
       (ImageRenamer.executeRename env dirOk file config).trace =
         [StorageOp.getFile,
          StorageOp.createHandle (ImageRenamer.targetFileNameOf file config),
          StorageOp.write (ImageRenamer.targetFileNameOf file config) bts] ∨
       (ImageRenamer.executeRename env dirOk file config).trace =
         [StorageOp.getFile,
          StorageOp.createHandle (ImageRenamer.targetFileNameOf file config),
          StorageOp.write (ImageRenamer.targetFileNameOf file config) bts,
          StorageOp.close (ImageRenamer.targetFileNameOf file config)] ∨
       ((config.keepOriginals = false ∧
         ImageRenamer.targetFileNameOf file config ≠
           file.originalName ++ file.extension) ∧
        (ImageRenamer.executeRename env dirOk file config).trace =
         [StorageOp.getFile,
          StorageOp.createHandle (ImageRenamer.targetFileNameOf file config),
          StorageOp.write (ImageRenamer.targetFileNameOf file config) bts,
          StorageOp.close (ImageRenamer.targetFileNameOf file config),
          StorageOp.removeEntry (file.originalName ++ file.extension)])) := by
  unfold ImageRenamer.executeRename
  by_cases hhd : (file.hasHandle && dirOk) = true
  · by_cases hnm : ((file.newName ++ file.extension ==
        file.originalName ++ file.extension) && !config.enableResize) = true
    · exact ⟨env.content, fun _ => rfl, fun _ => rfl, by simp [hhd, hnm]⟩
    · by_cases hgf : env.getFileFails = true
      · exact ⟨env.content, fun _ => rfl, fun _ => rfl, by simp [hhd, hnm, hgf]⟩
      · by_cases her : config.enableResize = true
        · cases hsr : ImageResizer.shouldResize env.width config.resizeWidth with
          | none =>
            exact ⟨env.content, fun _ => rfl, fun _ => rfl,
              by simp [hhd, hnm, hgf, her, hsr]⟩
          | some b =>
            cases b with
            | false =>
              refine ⟨env.content, fun _ => rfl, fun _ => rfl, ?_⟩
              simp only [hhd, hnm, hgf, her, hsr]
              repeat' split
              all_goals simp_all
            | true =>
              cases hrz : env.resized with
              | none =>
                exact ⟨env.content, fun _ => rfl, fun _ => rfl,
                  by simp [hhd, hnm, hgf, her, hsr, hrz]⟩
              | some r =>
                refine ⟨r,
                  fun h => False.elim (by rw [her] at h; exact Bool.noConfusion h),
                  fun h => False.elim (Bool.noConfusion (Option.some.inj h)), ?_⟩
                simp only [hhd, hnm, hgf, her, hsr, hrz]
                repeat' split
                all_goals simp_all
        · refine ⟨env.content, fun _ => rfl, fun _ => rfl, ?_⟩
          simp only [hhd, hnm, hgf, her]
          repeat' split
          all_goals simp_all
  · exact ⟨env.content, fun _ => rfl, fun _ => rfl, by simp [hhd]⟩

/-- C3: the executor removes the original file only after the write to the
target has been created, written and committed (closed) — every
`removeEntry` in the trace is preceded by a `createHandle`, a `write` and
a `close` of the target name — and no removal is ever issued when the
final full name equals the original full name or when `keepOriginals` is
true. -/
theorem executeRename_remove_after_commit (env : ExecEnv) (dirOk : Bool)
    (file : ProcessedFile) (config : RenameConfig) :
    (∀ i n,
      (ImageRenamer.executeRename env dirOk file config).trace.get? i =
          some (StorageOp.removeEntry n) →
      n = file.originalName ++ file.extension ∧
      ∃ j₁ j₂ j₃ b, j₁ < j₂ ∧ j₂ < j₃ ∧ j₃ < i ∧
        (ImageRenamer.executeRename env dirOk file config).trace.get? j₁ =
          some (StorageOp.createHandle (ImageRenamer.targetFileNameOf file config)) ∧
        (ImageRenamer.executeRename env dirOk file config).trace.get? j₂ =
          some (StorageOp.write (ImageRenamer.targetFileNameOf file config) b) ∧
        (ImageRenamer.executeRename env dirOk file config).trace.get? j₃ =
          some (StorageOp.close (ImageRenamer.targetFileNameOf file config))) ∧
    ((config.keepOriginals = true ∨
        file.newName ++ file.extension = file.originalName ++ file.extension) →
      ∀ n, StorageOp.removeEntry n ∉
        (ImageRenamer.executeRename env dirOk file config).trace) := by
  obtain ⟨bts, -, -, hsh⟩ := executeRename_shape env dirOk file config
  constructor
  · intro i n h
    rcases hsh with htr | htr | htr | htr | htr | htr | ⟨hside, htr⟩ <;> rw [htr] at h
    · simp at h
    · rcases i with _ | i <;> simp at h
    · rcases i with _ | _ | i <;> simp at h
    · rcases i with _ | _ | i <;> simp at h
    · rcases i with _ | _ | _ | i <;> simp at h
    · rcases i with _ | _ | _ | _ | i <;> simp at h
    · rcases i with _ | _ | _ | _ | _ | i <;> simp at h
      refine ⟨h.symm, 1, 2, 3, bts, by omega, by omega, by omega, ?_, ?_, ?_⟩ <;>
        rw [htr] <;> rfl
  · intro hko n hmem
    rcases hsh with htr | htr | htr | htr | htr | htr | ⟨⟨hkeep, hne⟩, htr⟩ <;>
      rw [htr] at hmem <;> simp at hmem
    rcases hko with hk | hfn
    · rw [hk] at hkeep; exact Bool.noConfusion hkeep
    · refine hne ?_
      unfold ImageRenamer.targetFileNameOf
      rw [hkeep]
      simpa using hfn

/-- C3 witness: with `keepOriginals` set on a concrete entry, the executor
issues no removal. -/
theorem executeRename_remove_after_commit_witness :
    StorageOp.removeEntry "old.jpg" ∉
      (ImageRenamer.executeRename sampleEnv true sampleFile
        { sampleCfg with keepOriginals := true }).trace :=
  (executeRename_remove_after_commit sampleEnv true sampleFile
    { sampleCfg with keepOriginals := true }).2 (Or.inl rfl) "old.jpg"

/-- C7: `shouldResize` resolves exactly the strict comparison
`sourceWidth > targetWidth` (false on equality, never upscaling), and
consequently an execution with `enableResize` on a source no wider than
the target writes exactly the original bytes. -/
theorem shouldResize_no_upscale (env : ExecEnv) (dirOk : Bool)
    (file : ProcessedFile) (config : RenameConfig) (w : Int)
    (hw : env.width = some w) :
    ImageResizer.shouldResize env.width config.resizeWidth =
      some (decide (config.resizeWidth < w)) ∧
    (w ≤ config.resizeWidth → config.enableResize = true →
      ∀ n b, StorageOp.write n b ∈
          (ImageRenamer.executeRename env dirOk file config).trace →
        b = env.content) := by
  constructor
  · simp [ImageResizer.shouldResize, hw]
  · intro hle _ n b hmem
    obtain ⟨bts, -, hb, hsh⟩ := executeRename_shape env dirOk file config
    have hfalse : ImageResizer.shouldResize env.width config.resizeWidth =
        some false := by
      simp only [ImageResizer.shouldResize, hw, Option.map_some']
      norm_num
      omega
    have hbc : bts = env.content := hb hfalse
    rcases hsh with htr | htr | htr | htr | htr | htr | ⟨-, htr⟩ <;>
      rw [htr] at hmem <;> simp at hmem
    · exact hmem.2.trans hbc
    · exact hmem.2.trans hbc
    · exact hmem.2.trans hbc

/-- C7 witness: a 1000-px-wide source against a 1920-px target is not
resized and the written bytes are the original content. -/
theorem shouldResize_no_upscale_witness :
    ImageResizer.shouldResize sampleEnv.width
        ({ sampleCfg with enableResize := true } : RenameConfig).resizeWidth =
      some (decide
        (({ sampleCfg with enableResize := true } : RenameConfig).resizeWidth <
          (1000 : Int))) ∧
    ([10, 20] : List Nat) = sampleEnv.content :=
  ⟨(shouldResize_no_upscale sampleEnv true sampleFile
      { sampleCfg with enableResize := true } 1000 rfl).1,
   (shouldResize_no_upscale sampleEnv true sampleFile
      { sampleCfg with enableResize := true } 1000 rfl).2 (by decide) rfl
     (ImageRenamer.targetFileNameOf sampleFile { sampleCfg with enableResize := true })
     [10, 20] (by decide)⟩

/-- Helper: the batch loop preserves the queue length. -/
theorem runQueue_length (config : RenameConfig)
    (queue : List (ProcessedFile × ExecEnv)) :
    (App.runQueue config queue).length = queue.length := by
  induction queue with
  | nil => rfl
  | cons fe rest ih =>
    cases fe with
    | mk file env => simp [App.runQueue, ih]

/-- Helper: the output of the batch loop at every position is determined
by that position's entry and environment alone. -/
theorem runQueue_get? (config : RenameConfig) :
    ∀ (queue : List (ProcessedFile × ExecEnv)) (i : Nat) fe,
      queue.get? i = some fe →
      (App.runQueue config queue).get? i = some
        (if fe.1.status = FileStatus.ERROR then (fe.1, [])
         else if (ImageRenamer.executeRename fe.2 true fe.1 config).success then
           ({ fe.1 with status := FileStatus.SUCCESS },
             (ImageRenamer.executeRename fe.2 true fe.1 config).trace)
         else
           ({ fe.1 with status := FileStatus.ERROR
                        errorMessage := some "Write/Move failed" },
             (ImageRenamer.executeRename fe.2 true fe.1 config).trace)) := by
  intro queue
  induction queue with
  | nil => intro i fe h; simp at h
  | cons fe0 rest ih =>
    intro i fe h
    cases i with
    | zero =>
      simp only [List.get?_cons_zero, Option.some.injEq] at h
      subst h
      cases fe0 with
      | mk file env =>
        by_cases hs : file.status = FileStatus.ERROR
        · simp [App.runQueue, hs]
        · simp [App.runQueue, hs]
    | succ j =>
      cases fe0 with
      | mk file env =>
        simp only [App.runQueue, List.get?_cons_succ]
        exact ih j fe (by simpa using h)

/-- C4: with `dryRun` off and a directory handle present, the batch
processes every entry: the output list has one entry per input, an entry
already in `Error` from planning is passed through untouched with an empty
trace (no storage operation attempted), and every other entry's outcome —
`Success` on a normal return, `Error` with the generic failure message on
a throw — depends only on that entry and its own environment, so a failure
in one entry never prevents or alters the processing of any other. -/
theorem handleRename_continue_on_error (config : RenameConfig) (dirOk : Bool)
    (queue : List (ProcessedFile × ExecEnv))
    (hdry : config.dryRun = false) (hdir : dirOk = true) :
    (App.handleRename config dirOk queue).length = queue.length ∧
    ∀ i fe, queue.get? i = some fe →
      (fe.1.status = FileStatus.ERROR →
        (App.handleRename config dirOk queue).get? i = some (fe.1, [])) ∧
      (fe.1.status ≠ FileStatus.ERROR →
        (App.handleRename config dirOk queue).get? i = some
          (if (ImageRenamer.executeRename fe.2 true fe.1 config).success then
            ({ fe.1 with status := FileStatus.SUCCESS },
              (ImageRenamer.executeRename fe.2 true fe.1 config).trace)
          else
            ({ fe.1 with status := FileStatus.ERROR
                         errorMessage := some "Write/Move failed" },
              (ImageRenamer.executeRename fe.2 true fe.1 config).trace))) := by
  have hred : App.handleRename config dirOk queue = App.runQueue config queue := by
    simp [App.handleRename, hdry, hdir]
  rw [hred]
  refine ⟨runQueue_length config queue, ?_⟩
  intro i fe h
  have hq := runQueue_get? config queue i fe h
  constructor
  · intro hs; rw [hq]; simp [hs]
  · intro hs; rw [hq]; simp [hs]

/-- C4 witness: in the concrete three-entry batch the planning-error entry
is passed through with no storage operations, and the entry after the
failing one is still processed. -/
theorem handleRename_continue_on_error_witness :
    (App.handleRename sampleCfg true sampleQueue).length = 3 ∧
    (App.handleRename sampleCfg true sampleQueue).get? 0 =
      some ({ sampleFile with status := FileStatus.ERROR }, []) :=
  ⟨(handleRename_continue_on_error sampleCfg true sampleQueue rfl rfl).1,
   ((handleRename_continue_on_error sampleCfg true sampleQueue rfl rfl).2 0
      ({ sampleFile with status := FileStatus.ERROR }, sampleEnv) rfl).1 rfl⟩

/-- C9: the scanner fails with a scan-level error when the platform lacks
the directory-picker capability, rethrows the access-denial error from the
picker, but a user abort yields an explicitly-empty successful result (an
empty file list with a null handle) rather than an error. -/
theorem scanDirectory_access_vs_abort (env : ScanEnv) :
    (env.pickerSupported = false →
      ∃ msg, ImageScanner.scanDirectory env = Except.error msg) ∧
    (∀ msg, env.pickerSupported = true → env.outcome = PickerOutcome.denied msg →
      ImageScanner.scanDirectory env = Except.error msg) ∧
    (env.pickerSupported = true → env.outcome = PickerOutcome.aborted →
      ImageScanner.scanDirectory env =
        Except.ok { files := [], dirHandle := none }) := by
  refine ⟨?_, ?_, ?_⟩
  · intro h
    exact ⟨"Your browser does not support the File System Access API. Please use Chrome, Edge, or Opera.",
      by simp [ImageScanner.scanDirectory, h]⟩
  · intro msg hs ho
    simp [ImageScanner.scanDirectory, hs, ho]
  · intro hs ho
    simp [ImageScanner.scanDirectory, hs, ho]

/-- C9 witness: on user abort the scanner returns the explicitly-empty
result, not an error. -/
theorem scanDirectory_access_vs_abort_witness :
    ImageScanner.scanDirectory sampleScanEnv =
      Except.ok { files := [], dirHandle := none } :=
  (scanDirectory_access_vs_abort sampleScanEnv).2.2 rfl rfl

/-- Helper: full characterization of the planning loop.  For a successful
run starting from counter `counter` and already-used key list `used`, the
result pairs each input position with the name computed at `counter + i`,
carries the input entry unchanged, and is marked `ERROR` exactly when
`overwrite` is off and the entry's lower-cased full target key either was
already in `used` or is computed by an earlier entry of this run; the only
other status is `PENDING`, and the conflict message is attached exactly to
`ERROR` entries. -/
theorem generatePreviewAux_spec (config : RenameConfig) :
    ∀ (files : List ImageFile) (counter : Int) (used : List String)
      (res : List ProcessedFile),
      ImageRenamer.generatePreviewAux config files counter used = some res →
      res.length = files.length ∧
      ∀ i, i < files.length →
        ∃ file pf nm,
          files.get? i = some file ∧
          res.get? i = some pf ∧
          ImageRenamer.applyPattern file config (counter + i) = some nm ∧
          pf.toImageFile = file ∧
          pf.newName = nm ∧
          (pf.status = FileStatus.ERROR ∨ pf.status = FileStatus.PENDING) ∧
          (pf.errorMessage =
            if pf.status = FileStatus.ERROR then some ImageRenamer.conflictMsg
            else none) ∧
          (pf.status = FileStatus.ERROR ↔
            config.overwrite = false ∧
              (used.contains (jsLower (nm ++ file.extension)) = true ∨
               ∃ j, j < i ∧ ∃ fj nmj,
                 files.get? j = some fj ∧
                 ImageRenamer.applyPattern fj config (counter + j) = some nmj ∧
                 jsLower (nmj ++ fj.extension) = jsLower (nm ++ file.extension))) := by
  intro files
  induction files with
  | nil =>
    intro counter used res h
    simp only [ImageRenamer.generatePreviewAux, Option.some.injEq] at h
    subst h
    exact ⟨rfl, fun i hi => absurd hi (by simp)⟩
  | cons f fs ih =>
    intro counter used res h
    simp only [ImageRenamer.generatePreviewAux] at h
    cases happ : ImageRenamer.applyPattern f config counter with
    | none => rw [happ] at h; exact absurd h (by simp)
    | some nm0 =>
      rw [happ] at h
      simp only at h
      cases hrec : ImageRenamer.generatePreviewAux config fs (counter + 1)
          (jsLower (nm0 ++ f.extension) :: used) with
      | none => rw [hrec] at h; exact absurd h (by simp)
      | some tail =>
        rw [hrec] at h
        simp only [Option.some.injEq] at h
        subst h
        obtain ⟨hlen, hspec⟩ :=
          ih (counter + 1) (jsLower (nm0 ++ f.extension) :: used) tail hrec
        refine ⟨by simp [hlen], ?_⟩
        intro i hi
        cases i with
        | zero =>
          refine ⟨f, _, nm0, rfl, rfl, by simpa using happ, rfl, rfl, ?_, ?_, ?_⟩
          · by_cases hc : (used.contains (jsLower (nm0 ++ f.extension)) &&
                !config.overwrite) = true
            · left
              simp only [Bool.and_eq_true, Bool.not_eq_true'] at hc
              have hmem : jsLower (nm0 ++ f.extension) ∈ used := by
                simpa using hc.1
              simp [hmem, hc.2]
            · right
              simp only [Bool.and_eq_true, Bool.not_eq_true', not_and] at hc
              simp
              intro hm
              cases hovv : config.overwrite with
              | true => rfl
              | false => exact absurd hovv (hc (List.elem_eq_true_of_mem hm))
          · by_cases hc : (used.contains (jsLower (nm0 ++ f.extension)) &&
                !config.overwrite) = true
            · simp [hc]
            · simp [hc]
          · by_cases hc : (used.contains (jsLower (nm0 ++ f.extension)) &&
                !config.overwrite) = true
            · simp only [hc, if_true]
              simp only [Bool.and_eq_true, Bool.not_eq_true'] at hc
              have hmem : jsLower (nm0 ++ f.extension) ∈ used := by
                simpa using hc.1
              simp [hmem, hc.2]
            · simp only [hc, if_false]
              simp only [Bool.and_eq_true, Bool.not_eq_true'] at hc
              constructor
              · intro habs; exact absurd habs (by simp)
              · rintro ⟨hov, hcont | ⟨j, hj, -⟩⟩
                · exact absurd (And.intro (by simpa using hcont) hov) hc
                · exact absurd hj (by simp)
        | succ j =>
          have hj : j < fs.length := by simpa using hi
          obtain ⟨file, pf, nm, h1, h2, h3, h4, h5, h6, h7, h8⟩ := hspec j hj
          have harith : counter + ((j : Nat) + 1 : Int) = counter + 1 + (j : Nat) := by
            ring
          refine ⟨file, pf, nm, by simpa using h1, by simpa using h2, ?_, h4, h5,
            h6, h7, ?_⟩
          · rw [show ((j + 1 : Nat) : Int) = ((j : Nat) : Int) + 1 by push_cast; ring]
            rw [harith]
            exact h3
          · rw [h8]
            constructor
            · rintro ⟨hov, hcase⟩
              refine ⟨hov, ?_⟩
              rcases hcase with hcont | ⟨j', hj', fj, nmj, hg, ha, hk⟩
              · rcases (by simpa using hcont :
                    jsLower (nm ++ file.extension) = jsLower (nm0 ++ f.extension) ∨
                    used.contains (jsLower (nm ++ file.extension)) = true) with hk0 | hu
                · exact Or.inr ⟨0, by omega, f, nm0, rfl, by simpa using happ, hk0.symm⟩
                · exact Or.inl hu
              · refine Or.inr ⟨j' + 1, by omega, fj, nmj, by simpa using hg, ?_, hk⟩
                rw [show ((j' + 1 : Nat) : Int) = ((j' : Nat) : Int) + 1 by push_cast; ring]
                rw [show counter + (((j' : Nat) : Int) + 1) = counter + 1 + (j' : Nat) by ring]
                exact ha
            · rintro ⟨hov, hcase⟩
              refine ⟨hov, ?_⟩
              rcases hcase with hu | ⟨j'', hj'', fj, nmj, hg, ha, hk⟩
              · refine Or.inl ?_
                simp
                exact Or.inr (by simpa using hu)
              · cases j'' with
                | zero =>
                  have hf : f = fj := by simpa using hg
                  have ha' : ImageRenamer.applyPattern fj config counter = some nmj := by
                    simpa using ha
                  have hnm : nmj = nm0 := by
                    rw [← hf] at ha'
                    exact Option.some.inj (ha'.symm.trans happ)
                  refine Or.inl ?_
                  simp
                  left
                  rw [hnm, ← hf] at hk
                  exact hk.symm
                | succ j' =>
                  refine Or.inr ⟨j', by omega, fj, nmj, by simpa using hg, ?_, hk⟩
                  have ha' := ha
                  rw [show ((j' + 1 : Nat) : Int) = ((j' : Nat) : Int) + 1 by push_cast; ring] at ha'
                  rw [show counter + (((j' : Nat) : Int) + 1) = counter + 1 + (j' : Nat) by ring] at ha'
                  exact ha'

/-- C1: in every successful plan, the entry at position i is marked Error
exactly when overwrite is false and some earlier entry j < i computes the
same case-insensitively normalized full target key; in every other case it
is Pending (with the conflict message attached exactly to Error entries).
The condition is the existence of any earlier entry with an equal key, so
every later duplicate of an already-seen key is flagged as well. -/
theorem generatePreview_conflict_iff (files : List ImageFile)
    (config : RenameConfig) (res : List ProcessedFile)
    (h : ImageRenamer.generatePreview files config = some res) (i : Nat)
    (hi : i < files.length) :
    ∃ file pf nm,
      files.get? i = some file ∧
      res.get? i = some pf ∧
      ImageRenamer.applyPattern file config (config.startNumber + i) = some nm ∧
      pf.newName = nm ∧
      (pf.status = FileStatus.ERROR ↔
        config.overwrite = false ∧
          ∃ j, j < i ∧ ∃ fj nmj,
            files.get? j = some fj ∧
            ImageRenamer.applyPattern fj config (config.startNumber + j) = some nmj ∧
            jsLower (nmj ++ fj.extension) = jsLower (nm ++ file.extension)) ∧
      (pf.status ≠ FileStatus.ERROR → pf.status = FileStatus.PENDING) ∧
      (pf.errorMessage =
        if pf.status = FileStatus.ERROR then some ImageRenamer.conflictMsg
        else none) := by
  obtain ⟨-, hspec⟩ :=
    generatePreviewAux_spec config files config.startNumber [] res h
  obtain ⟨file, pf, nm, h1, h2, h3, h4, h5, h6, h7, h8⟩ := hspec i hi
  refine ⟨file, pf, nm, h1, h2, h3, h5, ?_, ?_, h7⟩
  · rw [h8]
    simp
  · intro hne
    rcases h6 with he | hp
    · exact absurd he hne
    · exact hp

/-- Helper: rebuilding a string from its character list is the identity. -/
theorem string_mk_toList (s : String) : String.mk s.toList = s := by
  cases s with
  | mk data => rfl

/-- Helper: the literal-replacement scan is the identity on the empty list
for any fuel. -/
theorem replaceLitAux_nil (lit rep : List Char) (fuel : Nat) :
    replaceLitAux lit rep fuel [] = [] := by
  cases fuel <;> rfl

/-- Helper: the numeric-token scan is the identity on the empty list for
any fuel. -/
theorem replaceNumAux_nil (index : Int) (fuel : Nat) :
    replaceNumAux index fuel [] = [] := by
  cases fuel <;> rfl

/-- Helper: a literal that is a prefix of no suffix of the input leaves
the input unchanged (JS `replace` with zero matches). -/
theorem replaceLitAux_no_occ (lit rep : List Char) :
    ∀ (fuel : Nat) (l : List Char),
      (∀ t ∈ l.tails, lit.isPrefixOf t = false) →
      replaceLitAux lit rep fuel l = l := by
  intro fuel
  induction fuel with
  | zero => intro l h; cases l <;> rfl
  | succ fuel ih =>
    intro l h
    cases l with
    | nil => rfl
    | cons c cs =>
      have hpre : lit.isPrefixOf (c :: cs) = false := by
        refine h _ ?_
        rw [List.tails_cons]
        exact List.mem_cons_self _ _
      simp only [replaceLitAux, hpre, Bool.and_false, Bool.false_eq_true, if_false]
      refine congrArg (c :: ·) (ih cs (fun t ht => h t ?_))
      rw [List.tails_cons]
      exact List.mem_cons_of_mem _ ht

/-- Helper: below an all-digit run closed by the brace, no suffix starts
with an opening brace, so no brace-opened literal matches there. -/
theorem tails_digit_no_brace (r : List Char) :
    ∀ (ds : List Char), (∀ c ∈ ds, c.isDigit = true) →
      ∀ t ∈ (ds ++ ['\x7d']).tails, ('\x7b' :: r).isPrefixOf t = false := by
  intro ds
  induction ds with
  | nil =>
    intro _ t ht
    rw [List.nil_append] at ht
    have ht' : t = ['\x7d'] ∨ t = [] := by
      have he : (['\x7d'] : List Char).tails = [['\x7d'], []] := rfl
      rw [he] at ht
      simpa using ht
    rcases ht' with h | h <;> subst h <;> rfl
  | cons d ds ih =>
    intro h t ht
    rw [List.cons_append, List.tails_cons] at ht
    rcases List.mem_cons.1 ht with h0 | ht'
    · subst h0
      have hd : ('\x7b' == d) = false := by
        refine beq_eq_false_iff_ne.2 (fun hdd => ?_)
        have := h d (List.mem_cons_self _ _)
        rw [← hdd] at this
        exact absurd this (by decide)
      simp [List.isPrefixOf, hd]
    · exact ih (fun c hc => h c (List.mem_cons_of_mem _ hc)) t ht'

/-- Helper: `takeWhile`/`dropWhile` split an all-digit run at the closing
brace. -/
theorem takeWhile_digits (ds : List Char) (h : ∀ c ∈ ds, c.isDigit = true) :
    (ds ++ ['\x7d']).takeWhile Char.isDigit = ds ∧
    (ds ++ ['\x7d']).dropWhile Char.isDigit = ['\x7d'] := by
  induction ds with
  | nil => exact ⟨rfl, rfl⟩
  | cons d ds ih =>
    have hd : d.isDigit = true := h _ (List.mem_cons_self _ _)
    obtain ⟨h1, h2⟩ := ih (fun c hc => h c (List.mem_cons_of_mem _ hc))
    constructor
    · rw [List.cons_append, List.takeWhile_cons, hd]
      simp [h1]
    · rw [List.cons_append, List.dropWhile_cons, hd]
      simp [h2]

/-- Helper: the numeric token with a nonempty digit-run padding matches as
a whole, capturing the run. -/
theorem matchNumToken_padded (ds : List Char) (hne : ds ≠ [])
    (h : ∀ c ∈ ds, c.isDigit = true) :
    matchNumToken ('\x7b' :: 'n' :: 'u' :: 'm' :: ':' :: (ds ++ ['\x7d'])) =
      some (5 + ds.length + 1, some ds.length) := by
  obtain ⟨h1, h2⟩ := takeWhile_digits ds h
  have hpre1 : (['\x7b','n','u','m','\x7d'] : List Char).isPrefixOf
      ('\x7b' :: 'n' :: 'u' :: 'm' :: ':' :: (ds ++ ['\x7d'])) = false := by
    simp [List.isPrefixOf]
  have hpre2 : (['\x7b','n','u','m',':'] : List Char).isPrefixOf
      ('\x7b' :: 'n' :: 'u' :: 'm' :: ':' :: (ds ++ ['\x7d'])) = true := by
    simp [List.isPrefixOf]
  unfold matchNumToken
  rw [hpre1, hpre2]
  simp only [Bool.false_eq_true, if_false, if_true, List.drop_succ_cons,
    List.drop_zero, h1, h2]
  rw [if_pos ⟨hne, rfl⟩]

/-- Helper: the numeric-token pass on exactly one padded token produces
the zero-padded rendering of the counter. -/
theorem replaceNumAux_padded_token (index : Int) (ds : List Char)
    (hne : ds ≠ []) (h : ∀ c ∈ ds, c.isDigit = true) (fuel : Nat) :
    replaceNumAux index (fuel + 1) ('\x7b' :: 'n' :: 'u' :: 'm' :: ':' :: (ds ++ ['\x7d'])) =
      jsPadStart (toString index).toList ds.length := by
  have hm := matchNumToken_padded ds hne h
  have hdrop : ('\x7b' :: 'n' :: 'u' :: 'm' :: ':' :: (ds ++ ['\x7d'])).drop
      (5 + ds.length + 1) = [] := by
    apply List.drop_eq_nil_of_le
    simp
    omega
  simp only [replaceNumAux, hm, hdrop, replaceNumAux_nil, List.append_nil]

/-- Helper: the numeric-token pass on exactly one bare token produces the
unpadded rendering of the counter. -/
theorem replaceNumAux_bare_token (index : Int) (fuel : Nat) :
    replaceNumAux index (fuel + 1) ['\x7b','n','u','m','\x7d'] =
      (toString index).toList := by
  have hm : matchNumToken ['\x7b','n','u','m','\x7d'] = some (5, none) := by decide
  have hdrop : (['\x7b','n','u','m','\x7d'] : List Char).drop 5 = [] := rfl
  simp only [replaceNumAux, hm, hdrop, replaceNumAux_nil, List.append_nil]

/-- Helper: the numeric-token pass never changes a string containing no
opening brace. -/
theorem replaceNumAux_no_brace (index : Int) :
    ∀ (fuel : Nat) (l : List Char), (∀ c ∈ l, c ≠ '\x7b') →
      replaceNumAux index fuel l = l := by
  intro fuel
  induction fuel with
  | zero => intro l h; cases l <;> rfl
  | succ fuel ih =>
    intro l h
    cases l with
    | nil => rfl
    | cons c cs =>
      have hc : ('\x7b' == c) = false :=
        beq_eq_false_iff_ne.2 (fun hcc => h c (List.mem_cons_self _ _) hcc.symm)
      have hm : matchNumToken (c :: cs) = none := by
        unfold matchNumToken
        simp [List.isPrefixOf, hc]
      simp only [replaceNumAux, hm]
      exact congrArg (c :: ·) (ih cs (fun x hx => h x (List.mem_cons_of_mem _ hx)))

/-- Helper: string concatenation concatenates character lists. -/
theorem string_toList_append (s t : String) :
    (s ++ t).toList = s.toList ++ t.toList := rfl

/-- Helper: the character list of a rebuilt string. -/
theorem string_toList_mk (l : List Char) : (String.mk l).toList = l := rfl

/-- Helper: neither the `name` literal nor the `date` literal occurs
anywhere in a single padded numeric token. -/
theorem numtok_lit_no_occ (lit : List Char)
    (hl : lit = ['\x7b','n','a','m','e','\x7d'] ∨ lit = ['\x7b','d','a','t','e','\x7d'])
    (ds : List Char) (h : ∀ c ∈ ds, c.isDigit = true) :
    ∀ t ∈ ('\x7b' :: 'n' :: 'u' :: 'm' :: ':' :: (ds ++ ['\x7d'])).tails,
      lit.isPrefixOf t = false := by
  intro t ht
  rw [List.tails_cons] at ht
  rcases List.mem_cons.1 ht with h0 | ht
  · subst h0; rcases hl with rfl | rfl <;> rfl
  rw [List.tails_cons] at ht
  rcases List.mem_cons.1 ht with h0 | ht
  · subst h0; rcases hl with rfl | rfl <;> rfl
  rw [List.tails_cons] at ht
  rcases List.mem_cons.1 ht with h0 | ht
  · subst h0; rcases hl with rfl | rfl <;> rfl
  rw [List.tails_cons] at ht
  rcases List.mem_cons.1 ht with h0 | ht
  · subst h0; rcases hl with rfl | rfl <;> rfl
  rw [List.tails_cons] at ht
  rcases List.mem_cons.1 ht with h0 | ht
  · subst h0; rcases hl with rfl | rfl <;> rfl
  rcases hl with rfl | rfl
  · exact tails_digit_no_brace ['n','a','m','e','\x7d'] ds h t ht
  · exact tails_digit_no_brace ['d','a','t','e','\x7d'] ds h t ht

/-- Helper: decimal digit characters are never an opening brace. -/
theorem digitChar_ne_brace (m : Nat) : Nat.digitChar m ≠ '\x7b' := by
  rcases Nat.lt_or_ge m 16 with h | h
  · interval_cases m <;> decide
  · have hne : ∀ k, k < 16 → ¬ m = k := fun k hk he => by omega
    have he : Nat.digitChar m = '*' := by
      unfold Nat.digitChar
      rw [if_neg (hne 0 (by norm_num)), if_neg (hne 1 (by norm_num)),
        if_neg (hne 2 (by norm_num)), if_neg (hne 3 (by norm_num)),
        if_neg (hne 4 (by norm_num)), if_neg (hne 5 (by norm_num)),
        if_neg (hne 6 (by norm_num)), if_neg (hne 7 (by norm_num)),
        if_neg (hne 8 (by norm_num)), if_neg (hne 9 (by norm_num)),
        if_neg (hne 10 (by norm_num)), if_neg (hne 11 (by norm_num)),
        if_neg (hne 12 (by norm_num)), if_neg (hne 13 (by norm_num)),
        if_neg (hne 14 (by norm_num)), if_neg (hne 15 (by norm_num))]
    rw [he]
    decide

/-- Helper: the digit-accumulating core of `Nat.repr` only ever emits
digit characters on top of its accumulator, so no opening brace. -/
theorem toDigitsCore_ne_brace (b : Nat) :
    ∀ (fuel n : Nat) (acc : List Char), (∀ c ∈ acc, c ≠ '\x7b') →
      ∀ c ∈ Nat.toDigitsCore b fuel n acc, c ≠ '\x7b' := by
  intro fuel
  induction fuel with
  | zero =>
    intro n acc hacc c hc
    exact hacc c hc
  | succ fuel ih =>
    intro n acc hacc c hc
    unfold Nat.toDigitsCore at hc
    by_cases hz : n / b = 0
    · rw [if_pos hz] at hc
      rcases List.mem_cons.1 hc with rfl | hmem
      · exact digitChar_ne_brace _
      · exact hacc c hmem
    · rw [if_neg hz] at hc
      refine ih (n / b) (Nat.digitChar (n % b) :: acc) ?_ c hc
      intro x hx
      rcases List.mem_cons.1 hx with rfl | hmem
      · exact digitChar_ne_brace _
      · exact hacc x hmem

/-- Helper: the decimal rendering of a natural number contains no opening
brace. -/
theorem toString_nat_ne_brace (n : Nat) : ∀ c ∈ (toString n).toList, c ≠ '\x7b' := by
  intro c hc
  exact toDigitsCore_ne_brace 10 (n + 1) n [] (by simp) c
    (by simpa [toString, Nat.repr, Nat.toDigits, List.asString] using hc)

/-- Helper: the ISO year field contains no opening brace. -/
theorem isoYearStr_ne_brace (y : Int) : ∀ c ∈ (isoYearStr y).toList, c ≠ '\x7b' := by
  intro c hc
  unfold isoYearStr at hc
  split at hc
  · rw [string_toList_mk] at hc
    rcases List.mem_append.1 hc with hm | hm
    · rw [List.eq_of_mem_replicate hm]; decide
    · exact toString_nat_ne_brace _ c hm
  · rw [string_toList_append] at hc
    rcases List.mem_append.1 hc with hm | hm
    · split at hm
      · simp at hm; rw [hm]; decide
      · simp at hm; rw [hm]; decide
    · rw [string_toList_mk] at hm
      rcases List.mem_append.1 hm with hm' | hm'
      · rw [List.eq_of_mem_replicate hm']; decide
      · exact toString_nat_ne_brace _ c hm'

/-- Helper: the two-digit fields contain no opening brace. -/
theorem pad2_ne_brace (n : Nat) : ∀ c ∈ (pad2 n).toList, c ≠ '\x7b' := by
  intro c hc
  unfold pad2 at hc
  split at hc
  · rw [string_toList_append] at hc
    rcases List.mem_append.1 hc with hm | hm
    · simp at hm; rw [hm]; decide
    · exact toString_nat_ne_brace _ c hm
  · exact toString_nat_ne_brace _ c hc

/-- Helper: the computed date string contains no opening brace, so the
numeric-token pass never rewrites inside it. -/
theorem toISODate_ne_brace (ms : Int) (d : String)
    (h : toISODate ms = some d) : ∀ c ∈ d.toList, c ≠ '\x7b' := by
  unfold toISODate at h
  split at h
  · exact absurd h (by simp)
  · simp only [Option.some.injEq] at h
    subst h
    intro c hc
    rw [string_toList_append, string_toList_append, string_toList_append,
      string_toList_append] at hc
    rcases List.mem_append.1 hc with hm | hm
    · rcases List.mem_append.1 hm with hm' | hm'
      · rcases List.mem_append.1 hm' with h2 | h2
        · rcases List.mem_append.1 h2 with h3 | h3
          · exact isoYearStr_ne_brace _ c h3
          · simp at h3; rw [h3]; decide
        · exact pad2_ne_brace _ c h2
      · simp at hm'; rw [hm']; decide
    · exact pad2_ne_brace _ c hm

/-- Helper: pattern consisting of exactly the bare numeric token expands
to the unpadded counter wrapped by prefix and suffix. -/
theorem applyPattern_bare_num (file : ImageFile) (config : RenameConfig)
    (index : Int) (d : String) (hd : toISODate file.lastModified = some d)
    (hp : config.pattern = String.mk ['\x7b','n','u','m','\x7d']) :
    ImageRenamer.applyPattern file config index =
      some (config.prefixStr ++ toString index ++ config.suffix) := by
  have e1 : ∀ fuel, replaceLitAux ['\x7b','n','a','m','e','\x7d']
      file.originalName.toList fuel ['\x7b','n','u','m','\x7d'] =
      ['\x7b','n','u','m','\x7d'] :=
    fun fuel => replaceLitAux_no_occ _ _ fuel _ (by decide)
  have e2 : ∀ fuel, replaceLitAux ['\x7b','d','a','t','e','\x7d']
      d.toList fuel ['\x7b','n','u','m','\x7d'] = ['\x7b','n','u','m','\x7d'] :=
    fun fuel => replaceLitAux_no_occ _ _ fuel _ (by decide)
  unfold ImageRenamer.applyPattern
  simp only [hp, string_toList_mk, e1, hd, e2]
  rw [show (['\x7b','n','u','m','\x7d'] : List Char).length = 4 + 1 from rfl]
  rw [replaceNumAux_bare_token, string_mk_toList]

/-- Helper: pattern consisting of exactly one padded numeric token expands
to the zero-padded counter wrapped by prefix and suffix, the width being
the number of digits written in the token. -/
theorem applyPattern_padded_num (file : ImageFile) (config : RenameConfig)
    (index : Int) (d : String) (hd : toISODate file.lastModified = some d)
    (ds : List Char) (hne : ds ≠ []) (hds : ∀ c ∈ ds, c.isDigit = true)
    (hp : config.pattern = String.mk ('\x7b' :: 'n' :: 'u' :: 'm' :: ':' :: (ds ++ ['\x7d']))) :
    ImageRenamer.applyPattern file config index =
      some (config.prefixStr ++
        String.mk (jsPadStart (toString index).toList ds.length) ++ config.suffix) := by
  have e1 : ∀ fuel, replaceLitAux ['\x7b','n','a','m','e','\x7d']
      file.originalName.toList fuel ('\x7b' :: 'n' :: 'u' :: 'm' :: ':' :: (ds ++ ['\x7d'])) =
      ('\x7b' :: 'n' :: 'u' :: 'm' :: ':' :: (ds ++ ['\x7d'])) :=
    fun fuel => replaceLitAux_no_occ _ _ fuel _
      (numtok_lit_no_occ _ (Or.inl rfl) ds hds)
  have e2 : ∀ fuel, replaceLitAux ['\x7b','d','a','t','e','\x7d']
      d.toList fuel ('\x7b' :: 'n' :: 'u' :: 'm' :: ':' :: (ds ++ ['\x7d'])) =
      ('\x7b' :: 'n' :: 'u' :: 'm' :: ':' :: (ds ++ ['\x7d'])) :=
    fun fuel => replaceLitAux_no_occ _ _ fuel _
      (numtok_lit_no_occ _ (Or.inr rfl) ds hds)
  unfold ImageRenamer.applyPattern
  simp only [hp, string_toList_mk, e1, hd, e2]
  rw [show ('\x7b' :: 'n' :: 'u' :: 'm' :: ':' :: (ds ++ ['\x7d'])).length =
    (ds.length + 5) + 1 by simp]
  rw [replaceNumAux_padded_token index ds hne hds]

/-- Helper: the name pass on a pattern that is exactly the name token
injects the replacement text whole. -/
theorem replaceLitAux_whole_name (rep : List Char) :
    replaceLitAux ['\x7b','n','a','m','e','\x7d'] rep
      ((['\x7b','n','a','m','e','\x7d'] : List Char).length)
      ['\x7b','n','a','m','e','\x7d'] = rep := by
  rw [show ((['\x7b','n','a','m','e','\x7d'] : List Char).length) = 5 + 1 from rfl]
  simp only [replaceLitAux]
  norm_num [List.isPrefixOf]

/-- Helper (staged rewriting): with pattern `\x7bname\x7d` and an original
name that is literally the bare numeric token, the injected token is
substituted by the counter in the later pass. -/
theorem applyPattern_name_injects_num (file : ImageFile) (config : RenameConfig)
    (index : Int) (d : String) (hd : toISODate file.lastModified = some d)
    (hp : config.pattern = String.mk ['\x7b','n','a','m','e','\x7d'])
    (ho : file.originalName = String.mk ['\x7b','n','u','m','\x7d']) :
    ImageRenamer.applyPattern file config index =
      some (config.prefixStr ++ toString index ++ config.suffix) := by
  have e1 : replaceLitAux ['\x7b','n','a','m','e','\x7d'] ['\x7b','n','u','m','\x7d']
      ((['\x7b','n','a','m','e','\x7d'] : List Char).length)
      ['\x7b','n','a','m','e','\x7d'] = ['\x7b','n','u','m','\x7d'] := by decide
  have e2 : ∀ fuel, replaceLitAux ['\x7b','d','a','t','e','\x7d']
      d.toList fuel ['\x7b','n','u','m','\x7d'] = ['\x7b','n','u','m','\x7d'] :=
    fun fuel => replaceLitAux_no_occ _ _ fuel _ (by decide)
  unfold ImageRenamer.applyPattern
  simp only [hp, ho, string_toList_mk, e1, hd, e2]
  rw [show (['\x7b','n','u','m','\x7d'] : List Char).length = 4 + 1 from rfl]
  rw [replaceNumAux_bare_token, string_mk_toList]

/-- Helper (staged rewriting): with pattern `\x7bname\x7d` and an original
name that is literally the date token, the injected token is substituted
by the rendered date in the later pass. -/
theorem applyPattern_name_injects_date (file : ImageFile) (config : RenameConfig)
    (index : Int) (d : String) (hd : toISODate file.lastModified = some d)
    (hp : config.pattern = String.mk ['\x7b','n','a','m','e','\x7d'])
    (ho : file.originalName = String.mk ['\x7b','d','a','t','e','\x7d']) :
    ImageRenamer.applyPattern file config index =
      some (config.prefixStr ++ d ++ config.suffix) := by
  have e1 : replaceLitAux ['\x7b','n','a','m','e','\x7d'] ['\x7b','d','a','t','e','\x7d']
      ((['\x7b','n','a','m','e','\x7d'] : List Char).length)
      ['\x7b','n','a','m','e','\x7d'] = ['\x7b','d','a','t','e','\x7d'] := by decide
  have e2 : replaceLitAux ['\x7b','d','a','t','e','\x7d'] d.toList
      ((['\x7b','d','a','t','e','\x7d'] : List Char).length)
      ['\x7b','d','a','t','e','\x7d'] = d.toList := by
    rw [show ((['\x7b','d','a','t','e','\x7d'] : List Char).length) = 5 + 1 from rfl]
    simp only [replaceLitAux]
    norm_num [List.isPrefixOf]
  have e3 : replaceNumAux index d.toList.length d.toList = d.toList :=
    replaceNumAux_no_brace index _ _
      (fun c hc h => toISODate_ne_brace file.lastModified d hd c hc h)
  unfold ImageRenamer.applyPattern
  simp only [hp, ho, string_toList_mk, e1, hd, e2, e3]
  rw [string_mk_toList]

/-- C1 witness: for the concrete case-colliding batch, the second entry
is flagged as a conflict of the first. -/
theorem generatePreview_conflict_iff_witness :
    ∃ file pf nm,
      c1Files.get? 1 = some file ∧
      c1Res.get? 1 = some pf ∧
      ImageRenamer.applyPattern file c1Cfg (c1Cfg.startNumber + (1 : Nat)) = some nm ∧
      pf.newName = nm ∧
      (pf.status = FileStatus.ERROR ↔
        c1Cfg.overwrite = false ∧
          ∃ j, j < 1 ∧ ∃ fj nmj,
            c1Files.get? j = some fj ∧
            ImageRenamer.applyPattern fj c1Cfg (c1Cfg.startNumber + j) = some nmj ∧
            jsLower (nmj ++ fj.extension) = jsLower (nm ++ file.extension)) ∧
      (pf.status ≠ FileStatus.ERROR → pf.status = FileStatus.PENDING) ∧
      (pf.errorMessage =
        if pf.status = FileStatus.ERROR then some ImageRenamer.conflictMsg
        else none) :=
  generatePreview_conflict_iff c1Files c1Cfg c1Res (by rfl) 1 (by decide)

/-- C2: in every successful plan, the name of the entry at position i is
computed with counter value `startNumber + i`, independent of every
conflict outcome; in particular with the bare numeric token as the
pattern, the rendered digits are exactly those of `startNumber + i`. -/
theorem generatePreview_counter_linear (files : List ImageFile)
    (config : RenameConfig) (res : List ProcessedFile)
    (h : ImageRenamer.generatePreview files config = some res) (i : Nat)
    (hi : i < files.length) :
    ∃ file pf,
      files.get? i = some file ∧
      res.get? i = some pf ∧
      ImageRenamer.applyPattern file config (config.startNumber + i) =
        some pf.newName ∧
      (config.pattern = String.mk ['\x7b','n','u','m','\x7d'] →
        pf.newName = config.prefixStr ++
          toString (config.startNumber + (i : Int)) ++ config.suffix) := by
  obtain ⟨-, hspec⟩ :=
    generatePreviewAux_spec config files config.startNumber [] res h
  obtain ⟨file, pf, nm, h1, h2, h3, -, h5, -, -, -⟩ := hspec i hi
  refine ⟨file, pf, h1, h2, by rw [h5]; exact h3, ?_⟩
  intro hp
  cases hd : toISODate file.lastModified with
  | none =>
    have hnone : ImageRenamer.applyPattern file config
        (config.startNumber + i) = none := by
      unfold ImageRenamer.applyPattern
      rw [hd]
    rw [hnone] at h3
    exact absurd h3 (by simp)
  | some d =>
    have he := applyPattern_bare_num file config (config.startNumber + i) d hd hp
    rw [he] at h3
    rw [h5, (Option.some.inj h3)]

/-- C2 witness: for one concrete entry and the bare numeric pattern
starting at 1, position 0 renders the digit 1. -/
theorem generatePreview_counter_linear_witness :
    ∃ file pf,
      ([sampleFile.toImageFile] : List ImageFile).get? 0 = some file ∧
      c2Res.get? 0 = some pf ∧
      ImageRenamer.applyPattern file c2Cfg (c2Cfg.startNumber + (0 : Nat)) =
        some pf.newName ∧
      (c2Cfg.pattern = String.mk ['\x7b','n','u','m','\x7d'] →
        pf.newName = c2Cfg.prefixStr ++
          toString (c2Cfg.startNumber + ((0 : Nat) : Int)) ++ c2Cfg.suffix) :=
  generatePreview_counter_linear [sampleFile.toImageFile] c2Cfg c2Res
    (by rfl) 0 (by decide)

/-- C8: with a valid timestamp, a pattern that is the padded numeric token
`\x7bnum:<k digit characters>\x7d` substitutes the decimal rendering of
the counter left-padded with zeros to width k (k being the number of
digits written inside the token), while the bare `\x7bnum\x7d` form
substitutes it without padding. -/
theorem applyPattern_num_token_padding (file : ImageFile)
    (config : RenameConfig) (index : Int) (d : String)
    (hd : toISODate file.lastModified = some d)
    (ds : List Char) (hne : ds ≠ []) (hds : ∀ c ∈ ds, c.isDigit = true) :
    (config.pattern = String.mk ('\x7b' :: 'n' :: 'u' :: 'm' :: ':' :: (ds ++ ['\x7d'])) →
      ImageRenamer.applyPattern file config index =
        some (config.prefixStr ++
          String.mk (jsPadStart (toString index).toList ds.length) ++
          config.suffix)) ∧
    (config.pattern = String.mk ['\x7b','n','u','m','\x7d'] →
      ImageRenamer.applyPattern file config index =
        some (config.prefixStr ++ toString index ++ config.suffix)) :=
  ⟨fun hp => applyPattern_padded_num file config index d hd ds hne hds hp,
   fun hp => applyPattern_bare_num file config index d hd hp⟩

/-- C8 witness: `\x7bnum:003\x7d` at counter 7 renders 007. -/
theorem applyPattern_num_token_padding_witness :
    ImageRenamer.applyPattern sampleFile.toImageFile c8Cfg 7 =
      some (c8Cfg.prefixStr ++
        String.mk (jsPadStart (toString (7 : Int)).toList
          (['0','0','3'] : List Char).length) ++ c8Cfg.suffix) :=
  (applyPattern_num_token_padding sampleFile.toImageFile c8Cfg 7 "1970-01-01"
    (by rfl) ['0','0','3'] (by decide) (by decide)).1 rfl

/-- C10: token substitution is staged sequential rewriting — with pattern
`\x7bname\x7d`, an original name that is literally the numeric token (or
the date token) is not preserved literally in the output: the text
injected by the name pass is itself substituted by the counter (or the
rendered date) in the later passes. -/
theorem applyPattern_staged_rewrites (file : ImageFile)
    (config : RenameConfig) (index : Int) (d : String)
    (hd : toISODate file.lastModified = some d)
    (hp : config.pattern = String.mk ['\x7b','n','a','m','e','\x7d']) :
    (ImageRenamer.applyPattern file config index =
      some (config.prefixStr ++ String.mk (replaceNumAux index
        (replaceLitAux ['\x7b','d','a','t','e','\x7d'] d.toList
          file.originalName.toList.length file.originalName.toList).length
        (replaceLitAux ['\x7b','d','a','t','e','\x7d'] d.toList
          file.originalName.toList.length file.originalName.toList)) ++
        config.suffix)) ∧
    (file.originalName = String.mk ['\x7b','n','u','m','\x7d'] →
      ImageRenamer.applyPattern file config index =
        some (config.prefixStr ++ toString index ++ config.suffix)) ∧
    (file.originalName = String.mk ['\x7b','d','a','t','e','\x7d'] →
      ImageRenamer.applyPattern file config index =
        some (config.prefixStr ++ d ++ config.suffix)) :=
  ⟨by
    have ew := replaceLitAux_whole_name file.originalName.toList
    unfold ImageRenamer.applyPattern
    simp only [hp, string_toList_mk, ew, hd],
   fun ho => applyPattern_name_injects_num file config index d hd hp ho,
   fun ho => applyPattern_name_injects_date file config index d hd hp ho⟩

/-- C10 witness: an entry literally named `\x7bnum\x7d` under pattern
`\x7bname\x7d` renders the counter value 9, not the literal token. -/
theorem applyPattern_staged_rewrites_witness :
    ImageRenamer.applyPattern c10File c1Cfg 9 =
      some (c1Cfg.prefixStr ++ toString (9 : Int) ++ c1Cfg.suffix) :=
  (applyPattern_staged_rewrites c10File c1Cfg 9 "1970-01-01"
    (by rfl) rfl).2.1 rfl

/-- C5 counterexample: an entry whose `lastModified` lies outside the
representable `Date` range makes the Planner throw (the embedded
`generatePreview` returns `none`, mirroring the RangeError raised by
`toISOString`), refuting "the Planner never throws" as universally
stated. -/
theorem generatePreview_throws_counterexample :
    ImageRenamer.generatePreview [c5File] sampleCfg = none := by rfl

/-- Helper: the planning loop succeeds whenever every timestamp is
representable. -/
theorem generatePreviewAux_total (config : RenameConfig) :
    ∀ (files : List ImageFile),
      (∀ f ∈ files, f.lastModified.natAbs ≤ 8640000000000000) →
      ∀ (counter : Int) (used : List String),
        ∃ res, ImageRenamer.generatePreviewAux config files counter used = some res := by
  intro files
  induction files with
  | nil => intro _ counter used; exact ⟨[], rfl⟩
  | cons f fs ih =>
    intro hv counter used
    have hdate : ∃ d, toISODate f.lastModified = some d := by
      unfold toISODate
      rw [if_neg (by simpa using hv f (List.mem_cons_self _ _))]
      exact ⟨_, rfl⟩
    obtain ⟨d, hd⟩ := hdate
    have happ : ∃ nm, ImageRenamer.applyPattern f config counter = some nm := by
      unfold ImageRenamer.applyPattern
      rw [hd]
      exact ⟨_, rfl⟩
    obtain ⟨nm, hnm⟩ := happ
    obtain ⟨tail, htail⟩ :=
      ih (fun g hg => hv g (List.mem_cons_of_mem _ hg)) (counter + 1)
        (jsLower (nm ++ f.extension) :: used)
    cases haux : ImageRenamer.generatePreviewAux config (f :: fs) counter used with
    | some res => exact ⟨res, rfl⟩
    | none =>
      simp only [ImageRenamer.generatePreviewAux, hnm, htail] at haux
      exact Option.noConfusion haux

/-- C5 (amended): the Planner returns normally — all anomalies encoded as
entry status — provided every entry's `lastModified` is a representable
timestamp (|ms| ≤ 8.64e15); outside that range the unconditional
`toISOString` call throws. -/
theorem generatePreview_total_of_valid_dates (files : List ImageFile)
    (config : RenameConfig)
    (hv : ∀ f ∈ files, f.lastModified.natAbs ≤ 8640000000000000) :
    ∃ res, ImageRenamer.generatePreview files config = some res :=
  generatePreviewAux_total config files hv config.startNumber []

/-- C5 witness: a normal timestamp yields a plan. -/
theorem generatePreview_total_of_valid_dates_witness :
    ∃ res, ImageRenamer.generatePreview [sampleFile.toImageFile] sampleCfg =
      some res :=
  generatePreview_total_of_valid_dates [sampleFile.toImageFile] sampleCfg
    (by intro f hf; simp at hf; subst hf; decide)

/-- Helper: the planning loop's observable output (newName, status,
errorMessage) depends only on each entry's originalName, extension and
lastModified, the config, the counter and the used-key list. -/
theorem generatePreviewAux_congr (config : RenameConfig) :
    ∀ (files₁ files₂ : List ImageFile),
      files₁.length = files₂.length →
      (∀ i f₁ f₂, files₁.get? i = some f₁ → files₂.get? i = some f₂ →
        f₁.originalName = f₂.originalName ∧ f₁.extension = f₂.extension ∧
        f₁.lastModified = f₂.lastModified) →
      ∀ (counter : Int) (used : List String),
        (ImageRenamer.generatePreviewAux config files₁ counter used).map
            (List.map fun pf => (pf.newName, pf.status, pf.errorMessage)) =
          (ImageRenamer.generatePreviewAux config files₂ counter used).map
            (List.map fun pf => (pf.newName, pf.status, pf.errorMessage)) := by
  intro files₁
  induction files₁ with
  | nil =>
    intro files₂ hlen _ counter used
    cases files₂ with
    | nil => rfl
    | cons g gs => simp at hlen
  | cons f fs ih =>
    intro files₂ hlen hagree counter used
    cases files₂ with
    | nil => simp at hlen
    | cons g gs =>
      obtain ⟨ho, he, hm⟩ := hagree 0 f g rfl rfl
      have happ : ImageRenamer.applyPattern f config counter =
          ImageRenamer.applyPattern g config counter := by
        unfold ImageRenamer.applyPattern
        rw [ho, hm]
      cases ha : ImageRenamer.applyPattern g config counter with
      | none => simp only [ImageRenamer.generatePreviewAux, happ, ha, Option.map_none']
      | some nm =>
        have hrec := ih gs (by simpa using hlen)
          (fun i f₁ f₂ h1 h2 => hagree (i + 1) f₁ f₂ (by simpa using h1)
            (by simpa using h2))
          (counter + 1) (jsLower (nm ++ g.extension) :: used)
        simp only [ImageRenamer.generatePreviewAux, happ, ha, he]
        cases h1 : ImageRenamer.generatePreviewAux config fs (counter + 1)
            (jsLower (nm ++ g.extension) :: used) with
        | none =>
          cases h2 : ImageRenamer.generatePreviewAux config gs (counter + 1)
              (jsLower (nm ++ g.extension) :: used) with
          | none => rfl
          | some t2 => rw [h1, h2] at hrec; simp at hrec
        | some t1 =>
          cases h2 : ImageRenamer.generatePreviewAux config gs (counter + 1)
              (jsLower (nm ++ g.extension) :: used) with
          | none => rw [h1, h2] at hrec; simp at hrec
          | some t2 =>
            rw [h1, h2] at hrec
            simp only [Option.map_some', Option.some.injEq] at hrec
            simp only [Option.map_some', Option.some.injEq, List.map_cons]
            rw [hrec]
      
/-- C6: the Planner is deterministic and side-effect free — its observable
output (the sequences of newName, status and errorMessage) is a pure
function of the planning-relevant inputs: two invocations on entry lists
that agree pointwise on originalName, extension and lastModified, with
the same config, produce identical output sequences (in particular,
invoking it twice on identical inputs does). -/
theorem generatePreview_deterministic (files₁ files₂ : List ImageFile)
    (config : RenameConfig)
    (hlen : files₁.length = files₂.length)
    (hagree : ∀ i f₁ f₂, files₁.get? i = some f₁ → files₂.get? i = some f₂ →
      f₁.originalName = f₂.originalName ∧ f₁.extension = f₂.extension ∧
      f₁.lastModified = f₂.lastModified) :
    (ImageRenamer.generatePreview files₁ config).map
        (List.map fun pf => (pf.newName, pf.status, pf.errorMessage)) =
      (ImageRenamer.generatePreview files₂ config).map
        (List.map fun pf => (pf.newName, pf.status, pf.errorMessage)) :=
  generatePreviewAux_congr config files₁ files₂ hlen hagree
    config.startNumber []

/-- C6 witness: the sample entry and a copy differing only in id, path
and size plan to identical observable outputs. -/
theorem generatePreview_deterministic_witness :
    (ImageRenamer.generatePreview [sampleFile.toImageFile] sampleCfg).map
        (List.map fun pf => (pf.newName, pf.status, pf.errorMessage)) =
      (ImageRenamer.generatePreview c6Files sampleCfg).map
        (List.map fun pf => (pf.newName, pf.status, pf.errorMessage)) :=
  generatePreview_deterministic [sampleFile.toImageFile] c6Files sampleCfg
    (by decide)
    (by
      intro i f₁ f₂ h1 h2
      cases i with
      | zero =>
        have e1 : sampleFile.toImageFile = f₁ := Option.some.inj h1
        have e2 : ({ sampleFile.toImageFile with
          id := "2", path := "q", size := 99 } : ImageFile) = f₂ :=
          Option.some.inj h2
        subst e1
        subst e2
        exact ⟨rfl, rfl, rfl⟩
      | succ j => simp at h1)
